import Mathlib

/-!
Verification development for the PolymarketAlphaEngine repository.

The Python modules `data_models.py`, `arbitrage_analyzer.py`,
`orderbook_manager.py`, `poly_orderbook.py`, `multi_poly_websocket.py` and
`poly_websocket.py` are shallowly embedded below.  Design choices of the
embedding:

* Numeric values are carried as exact rationals (`ℚ`), with the two rounding
  steps the program actually performs made explicit: `float(s)` rounds the
  exact value of the string to the nearest IEEE-754 double (53-bit binary
  significand, ties to even; the astronomically remote overflow/subnormal
  ranges of doubles are not modelled), and `Decimal` addition rounds the
  exact sum half-even to the default context's 28 significant decimal
  digits.  `Decimal(s)` conversion and `Decimal` comparison are exact, as in
  Python.
* Python exceptions are modelled with `Except PyErr`.  `Decimal(s)` on a
  malformed string raises `decimal.InvalidOperation` (a subclass of
  `ArithmeticError`, not of `ValueError`/`TypeError`), while `float(s)` on a
  malformed string raises `ValueError`; both are reflected exactly.
* Python `dict`s (insertion ordered) are modelled as association lists with
  in-place overwrite on key collision.
* Wall-clock timestamps (`datetime.utcnow()`) are passed in as an explicit
  `ℕ` parameter where the code samples them.
-/

set_option allowUnsafeReducibility true in
attribute [semireducible] Rat.add Rat.mul Rat.inv Rat.sub Rat.div Rat.ofScientific

set_option maxRecDepth 100000

namespace PolyAlpha

/-- Python exception classes relevant to the embedded code paths. -/
inductive PyErr where
  | valueError
  | typeError
  | invalidOperation
  deriving DecidableEq, Repr

/-- Decidable equality for `Except`, used to evaluate runs on concrete
inputs. -/
instance {e : Type u} {a : Type v} [DecidableEq e] [DecidableEq a] :
    DecidableEq (Except e a) := fun x y =>
  match x, y with
  | .ok v, .ok w =>
    if h : v = w then isTrue (by rw [h]) else isFalse (fun hh => h (Except.ok.inj hh))
  | .error v, .error w =>
    if h : v = w then isTrue (by rw [h]) else isFalse (fun hh => h (Except.error.inj hh))
  | .ok _, .error _ => isFalse (fun hh => Except.noConfusion hh)
  | .error _, .ok _ => isFalse (fun hh => Except.noConfusion hh)

/-! ## Decimal string parsing

Models the finite-literal syntax accepted by both `decimal.Decimal(str)` and
`float(str)`: optional surrounding whitespace, optional sign, digits with an
optional decimal point (at least one digit overall), and an optional
exponent part.  The value is returned as an exact rational. -/

/-- Numeric value of a single decimal digit character. -/
def digitVal (c : Char) : ℕ := c.toNat - 48

/-- Value of a digit string read most-significant first. -/
def digitsVal (cs : List Char) : ℕ := cs.foldl (fun n c => n * 10 + digitVal c) 0

/-- Powers of ten, written recursively so kernel reduction is direct. -/
def tenPow : ℕ → ℕ
  | 0 => 1
  | n + 1 => 10 * tenPow n

/-- Powers of two, written recursively so kernel reduction is direct. -/
def twoPow : ℕ → ℕ
  | 0 => 1
  | n + 1 => 2 * twoPow n

/-- Decimal digit count of `n`, via fuel-bounded division by ten (the fuel
is only an upper bound on the iteration count; the loop stops at zero). -/
def digitsGo (base : ℕ) : ℕ → ℕ → ℕ
  | 0, _ => 0
  | fuel + 1, n => if n = 0 then 0 else digitsGo base fuel (n / base) + 1

/-- Number of decimal digits of `n` (`0` for `n = 0`). -/
def digits10 (n : ℕ) : ℕ := digitsGo 10 n n

/-- Number of binary digits of `n` (`0` for `n = 0`). -/
def bits2 (n : ℕ) : ℕ := digitsGo 2 n n

/-- Round a rational to the nearest integer, ties to even. -/
def halfEvenRound (q : ℚ) : ℤ :=
  let f := Int.fdiv q.num (q.den : ℤ)
  let rem := q.num - f * (q.den : ℤ)
  if 2 * rem < (q.den : ℤ) then f
  else if (q.den : ℤ) < 2 * rem then f + 1
  else if f % 2 = 0 then f else f + 1

/-- For `q > 0`, the unique `e : ℤ` with `10^e ≤ q < 10^(e+1)`. -/
def decExp (q : ℚ) : ℤ :=
  let n := q.num.natAbs
  let c : ℤ := (digits10 n : ℤ) - (digits10 q.den : ℤ)
  let big : Bool :=
    if 0 ≤ c then decide (q.den * tenPow c.toNat ≤ n)
    else decide (q.den ≤ n * tenPow (-c).toNat)
  if big then c else c - 1

/-- For `q > 0`, the unique `e : ℤ` with `2^e ≤ q < 2^(e+1)`. -/
def binExp (q : ℚ) : ℤ :=
  let n := q.num.natAbs
  let c : ℤ := (bits2 n : ℤ) - (bits2 q.den : ℤ)
  let big : Bool :=
    if 0 ≤ c then decide (q.den * twoPow c.toNat ≤ n)
    else decide (q.den ≤ n * twoPow (-c).toNat)
  if big then c else c - 1

/-- Round `q` half-even to the grid of multiples of `10^scale`. -/
def roundAtTenPow (scale : ℤ) (q : ℚ) : ℚ :=
  if 0 ≤ scale then
    mkRat (halfEvenRound (mkRat q.num (q.den * tenPow scale.toNat)) *
      (tenPow scale.toNat : ℤ)) 1
  else
    mkRat (halfEvenRound (mkRat (q.num * (tenPow (-scale).toNat : ℤ)) q.den))
      (tenPow (-scale).toNat)

/-- Round `q` half-even to the grid of multiples of `2^scale`. -/
def roundAtTwoPow (scale : ℤ) (q : ℚ) : ℚ :=
  if 0 ≤ scale then
    mkRat (halfEvenRound (mkRat q.num (q.den * twoPow scale.toNat)) *
      (twoPow scale.toNat : ℤ)) 1
  else
    mkRat (halfEvenRound (mkRat (q.num * (twoPow (-scale).toNat : ℤ)) q.den))
      (twoPow (-scale).toNat)

/-- Round half-even to 28 significant decimal digits: the rounding Python's
`decimal` module applies to every arithmetic result under the default
context (`getcontext().prec == 28`, `ROUND_HALF_EVEN`). -/
def decimalRound28 (q : ℚ) : ℚ :=
  if q = 0 then 0
  else if q < 0 then - roundAtTenPow (decExp (-q) - 27) (-q)
  else roundAtTenPow (decExp q - 27) q

/-- Round to the nearest IEEE-754 double: 53 significant binary digits,
ties to even.  Exponent overflow and subnormals are far outside the range
of any price string and are not modelled. -/
def floatRound (q : ℚ) : ℚ :=
  if q = 0 then 0
  else if q < 0 then - roundAtTwoPow (binExp (-q) - 52) (-q)
  else roundAtTwoPow (binExp q - 52) q

/-- Strip leading and trailing whitespace, as Python numeric parsing does. -/
def stripWs (cs : List Char) : List Char :=
  ((cs.dropWhile Char.isWhitespace).reverse.dropWhile Char.isWhitespace).reverse

/-- Consume an optional leading sign, returning the sign as `1` or `-1`. -/
def parseSign : List Char → ℤ × List Char
  | '+' :: rest => (1, rest)
  | '-' :: rest => (-1, rest)
  | cs => (1, cs)

/-- Parse the digits-and-point part of a decimal literal, returning the
digit string's value, the number of fractional digits, and the remainder. -/
def parseMantissa (cs : List Char) : Option (ℕ × ℕ × List Char) :=
  let ip := cs.takeWhile Char.isDigit
  let r1 := cs.dropWhile Char.isDigit
  match r1 with
  | '.' :: r2 =>
    let fp := r2.takeWhile Char.isDigit
    let r3 := r2.dropWhile Char.isDigit
    if ip.isEmpty && fp.isEmpty then none
    else some (digitsVal (ip ++ fp), fp.length, r3)
  | _ => if ip.isEmpty then none else some (digitsVal ip, 0, r1)

/-- Parse the optional exponent suffix of a decimal literal. -/
def parseExpPart : List Char → Option ℤ
  | [] => some 0
  | e :: rest =>
    if e = 'e' ∨ e = 'E' then
      let sr := parseSign rest
      let ds := sr.2.takeWhile Char.isDigit
      let r2 := sr.2.dropWhile Char.isDigit
      if ds.isEmpty ∨ ¬ r2.isEmpty then none
      else some (sr.1 * (digitsVal ds : ℤ))
    else none

/-- Exact rational value of a finite decimal literal, or `none` when the
string is not a valid literal. -/
def parseDecimalString (s : String) : Option ℚ :=
  let cs := stripWs s.data
  let sp := parseSign cs
  match parseMantissa sp.2 with
  | none => none
  | some m =>
    match parseExpPart m.2.2 with
    | none => none
    | some e =>
      some (mkRat (sp.1 * (m.1 : ℤ) * (tenPow e.toNat : ℤ))
        (tenPow (m.2.1 + (-e).toNat)))

/-- `float(s)`: the exact value of the literal rounded to the nearest
IEEE-754 double; raises `ValueError` on a malformed string. -/
def pyFloat (s : String) : Except PyErr ℚ :=
  match parseDecimalString s with
  | some q => .ok (floatRound q)
  | none => .error .valueError

/-- `Decimal(s)`: raises `decimal.InvalidOperation` on a malformed string. -/
def pyDecimal (s : String) : Except PyErr ℚ :=
  match parseDecimalString s with
  | some q => .ok q
  | none => .error .invalidOperation

/-! ## Data model (`data_models.py`) -/

/-- `OrderBookLevel`: one price level, price and size carried as strings. -/
structure OrderBookLevel where
  price : String
  size : String
  deriving DecidableEq, Repr

/-- One raw `{"price": …, "size": …}` entry of a websocket level list. -/
structure RawLevel where
  price : String
  size : String
  deriving DecidableEq, Repr

/-- `OrderBookSide`: one side of a book, top `max_levels` levels. -/
structure OrderBookSide where
  levels : List OrderBookLevel
  max_levels : ℕ
  is_bids : Bool
  deriving DecidableEq, Repr

/-- `OrderBookSide.best_level`: first stored level, if any. -/
def OrderBookSide.bestLevel (s : OrderBookSide) : Option OrderBookLevel :=
  s.levels.head?

/-! ### Stable insertion sort

`sorted(levels, key=..., reverse=...)` is a stable sort; it is modelled by a
stable insertion sort over key/level pairs.  The comparison `lt` is strict,
so an element inserted later stays after equal-key elements. -/

/-- Insert one element into a sorted list, after all equal-key elements. -/
def insertSorted (lt : α → α → Bool) (x : α) : List α → List α
  | [] => [x]
  | y :: ys => if lt x y then x :: y :: ys else y :: insertSorted lt x ys

/-- Stable sort by repeated insertion, in input order. -/
def stableSort (lt : α → α → Bool) (xs : List α) : List α :=
  xs.foldl (fun acc x => insertSorted lt x acc) []

/-- Monadic map over a list that stops at the first error, mirroring Python
building the list of sort keys in list order. -/
def mapExcept (f : α → Except ε β) : List α → Except ε (List β)
  | [] => .ok []
  | x :: xs => do
    let y ← f x
    let ys ← mapExcept f xs
    .ok (y :: ys)

/-- Strict comparison used as sort key: ascending on the rational price for
asks, descending for bids (`reverse=self.is_bids`). -/
def levelLt (is_bids : Bool) (a b : ℚ × OrderBookLevel) : Bool :=
  if is_bids then decide (b.1 < a.1) else decide (a.1 < b.1)

/-- `OrderBookSide.update`: full replace of one side from a raw level list.
Empty input empties the side; otherwise levels are keyed by `float(price)`
(raising `ValueError` on a malformed price), sorted by the side's direction
and truncated to `max_levels`. -/
def OrderBookSide.update (side : OrderBookSide) (new_levels : List RawLevel) :
    Except PyErr OrderBookSide :=
  if new_levels.isEmpty then .ok { side with levels := [] }
  else do
    let keyed ← mapExcept
      (fun l => (pyFloat l.price).map
        (fun q => (q, ({ price := l.price, size := l.size } : OrderBookLevel)))) new_levels
    let sorted_levels := stableSort (levelLt side.is_bids) keyed
    .ok { side with levels := (sorted_levels.map (fun p => p.2)).take side.max_levels }

/-- Side tag stored in the token map.  `TokenMapper.add_event` only ever
writes the strings `"yes"` and `"no"`, modelled as an inductive. -/
inductive Side where
  | yes
  | no
  deriving DecidableEq, Repr

/-- `OrderBook`: bid and ask sides plus the last update time. -/
structure OrderBook where
  bids : OrderBookSide
  asks : OrderBookSide
  last_updated : Option ℕ
  deriving DecidableEq, Repr

/-- A `book` websocket message as consumed by the order book layer:
`asset_id` plus optional `bids`/`asks` level lists (`data.get(..., [])`). -/
structure BookMessage where
  asset_id : Option String
  bids : Option (List RawLevel)
  asks : Option (List RawLevel)
  deriving DecidableEq, Repr

/-- `OrderBook.update`: replace both sides from the message (missing keys
default to the empty list) and stamp `last_updated` with the receipt time. -/
def OrderBook.update (b : OrderBook) (data : BookMessage) (now : ℕ) :
    Except PyErr OrderBook := do
  let new_bids ← b.bids.update (data.bids.getD [])
  let new_asks ← b.asks.update (data.asks.getD [])
  .ok { bids := new_bids, asks := new_asks, last_updated := some now }

/-- `OutcomeSide`: one tradable instrument (YES or NO leg). -/
structure OutcomeSide where
  token_id : String
  order_book : OrderBook
  deriving DecidableEq, Repr

/-- `Outcome`: one binary market with YES and NO sides. -/
structure Outcome where
  title : String
  market_id : String
  yes : OutcomeSide
  no : OutcomeSide
  deriving DecidableEq, Repr

/-- `Event`: a multi-outcome event; `outcomes` is an insertion-ordered dict
`market_id → Outcome`, modelled as an association list. -/
structure Event where
  event_id : ℤ
  title : String
  outcomes : List (String × Outcome)
  deriving DecidableEq, Repr

/-! ### Insertion-ordered dictionaries -/

/-- `d.get(k)`: first binding of `k`, if any. -/
def dictGet (l : List (String × β)) (k : String) : Option β :=
  (l.find? (fun p => decide (p.1 = k))).map (fun p => p.2)

/-- `d[k] = v`: overwrite the binding in place, or append a new one. -/
def dictInsert : List (String × β) → String → β → List (String × β)
  | [], k, v => [(k, v)]
  | p :: ps, k, v => if p.1 = k then (k, v) :: ps else p :: dictInsert ps k v

/-- `TokenMapper`: token id → `(event_id, market_id, side)`. -/
structure TokenMapper where
  token_to_outcome : List (String × (String × String × Side))
  deriving DecidableEq, Repr

/-- `TokenMapper.get_outcome_info`. -/
def TokenMapper.get_outcome_info (m : TokenMapper) (token_id : String) :
    Option (String × String × Side) :=
  dictGet m.token_to_outcome token_id

/-- The loop body of `TokenMapper.add_event`: walk the outcomes in order,
registering first the YES then the NO token of each. -/
def addEventFold (eid : String) (acc : List (String × (String × String × Side))) :
    List (String × Outcome) → List (String × (String × String × Side))
  | [] => acc
  | p :: rest =>
    addEventFold eid
      (dictInsert (dictInsert acc p.2.yes.token_id (eid, p.1, Side.yes))
        p.2.no.token_id (eid, p.1, Side.no)) rest

/-- `TokenMapper.add_event`: register the YES and NO token of every outcome. -/
def TokenMapper.add_event (m : TokenMapper) (e : Event) : TokenMapper :=
  ⟨addEventFold (toString e.event_id) m.token_to_outcome e.outcomes⟩

/-- The token ids registered by one `add_event` call, in registration order. -/
def outcomesTokenIds : List (String × Outcome) → List String
  | [] => []
  | p :: rest => p.2.yes.token_id :: p.2.no.token_id :: outcomesTokenIds rest

/-! ## Arbitrage analyzer (`arbitrage_analyzer.py`)

`datetime.utcnow()` only feeds the emitted record's wall-clock field and is
omitted from the embedded record.  The analyzer's `threshold` is the exact
value of `Decimal(str(threshold))`, taken here as a rational parameter. -/

/-- One entry of the `outcomes` list of an opportunity record. -/
structure AsksEntry where
  outcome_title : String
  best_ask_price : ℚ
  best_ask_size : ℚ
  token_id : String
  last_updated : Option ℕ
  deriving DecidableEq, Repr

/-- The opportunity record built by `check_event`. -/
structure ArbitrageData where
  event_id : ℤ
  event_title : String
  threshold : ℚ
  cost_sum : ℚ
  is_arbitrage : Bool
  outcomes : List AsksEntry
  deriving DecidableEq, Repr

/-- `ArbitrageAnalyzer._get_decimal_value`: convert a level's price and size
with `Decimal`, returning `none` for a missing level.  The `except
(ValueError, TypeError)` clause turns only those two classes into a `none`
result; `decimal.InvalidOperation` escapes. -/
def getDecimalValue (level : Option OrderBookLevel) : Except PyErr (Option (ℚ × ℚ)) :=
  match level with
  | none => .ok none
  | some l =>
    match pyDecimal l.price with
    | .error .valueError => .ok none
    | .error .typeError => .ok none
    | .error e => .error e
    | .ok p =>
      match pyDecimal l.size with
      | .error .valueError => .ok none
      | .error .typeError => .ok none
      | .error e => .error e
      | .ok s => .ok (some (p, s))

/-- The per-outcome entry appended to `asks_data` in `check_event`. -/
def mkAsksEntry (o : Outcome) (ask_price ask_size : ℚ) : AsksEntry :=
  { outcome_title := o.title, best_ask_price := ask_price, best_ask_size := ask_size,
    token_id := o.yes.token_id, last_updated := o.yes.order_book.last_updated }

/-- The accumulation loop of `check_event`: walk the outcomes in insertion
order, skip outcomes with no ask data, and accumulate the `asks_data` list,
`cost_sum` and `count_with_asks`.  `cost_sum += ask_price` is `Decimal`
addition, which rounds each partial sum to the context's 28 significant
digits. -/
def checkScan (acc : List AsksEntry × ℚ × ℕ) :
    List (String × Outcome) → Except PyErr (List AsksEntry × ℚ × ℕ)
  | [] => .ok acc
  | p :: rest => do
    let yes_best_ask ← getDecimalValue p.2.yes.order_book.asks.bestLevel
    match yes_best_ask with
    | none => checkScan acc rest
    | some q =>
      checkScan (acc.1 ++ [mkAsksEntry p.2 q.1 q.2],
        decimalRound28 (acc.2.1 + q.1), acc.2.2 + 1) rest

/-- `ArbitrageAnalyzer.check_event`.  Returns the decision (`none` when no
outcome has ask data or no opportunity exists) together with the list of
records appended to the opportunity log by `save_to_jsonl`. -/
def checkEvent (threshold : ℚ) (event : Event) :
    Except PyErr (Option ArbitrageData × List ArbitrageData) := do
  let r ← checkScan ([], 0, 0) event.outcomes
  let asks_data := r.1
  let cost_sum := r.2.1
  let count_with_asks := r.2.2
  if count_with_asks = 0 then .ok (none, [])
  else
    let is_arbitrage : Bool := decide (cost_sum ≤ threshold)
    if is_arbitrage then
      let d : ArbitrageData :=
        { event_id := event.event_id, event_title := event.title,
          threshold := threshold, cost_sum := cost_sum,
          is_arbitrage := is_arbitrage, outcomes := asks_data }
      .ok (some d, [d])
    else .ok (none, [])

/-! ## Order book manager (`orderbook_manager.py`) -/

/-- `OrderBookManager` state: event map plus token mapper. -/
structure OrderBookManager where
  events : List (String × Event)
  token_mapper : TokenMapper
  deriving DecidableEq, Repr

/-- `OrderBookManager.handle_book_update`: route a message to the tracked
instrument's book, mutate it, and report whether it was processed. -/
def managerHandleBookUpdate (st : OrderBookManager) (data : BookMessage) (now : ℕ) :
    Except PyErr (OrderBookManager × Bool) :=
  match data.asset_id with
  | none => .ok (st, false)
  | some asset_id =>
    -- `if not asset_id`: the empty string is falsy
    if asset_id = "" then .ok (st, false)
    else
      match st.token_mapper.get_outcome_info asset_id with
      | none => .ok (st, false)
      | some info =>
        match dictGet st.events info.1 with
        | none => .ok (st, false)
        | some event =>
          match dictGet event.outcomes info.2.1 with
          | none => .ok (st, false)
          | some outcome => do
            match info.2.2 with
            | Side.yes =>
              let b ← outcome.yes.order_book.update data now
              let outcome2 := { outcome with yes := { outcome.yes with order_book := b } }
              let event2 := { event with outcomes := dictInsert event.outcomes info.2.1 outcome2 }
              .ok ({ st with events := dictInsert st.events info.1 event2 }, true)
            | Side.no =>
              let b ← outcome.no.order_book.update data now
              let outcome2 := { outcome with no := { outcome.no with order_book := b } }
              let event2 := { event with outcomes := dictInsert event.outcomes info.2.1 outcome2 }
              .ok ({ st with events := dictInsert st.events info.1 event2 }, true)

/-! ## Ingestion coordinator (`poly_orderbook.py`) -/

/-- `PolyOrderBookApp.handle_book_update`: apply the update via the manager
and, when processed and the owning event has at least two outcomes, run the
arbitrage check.  Returns the new state, the processed flag, whether
`check_event` was triggered, and the records emitted to the log. -/
def appHandleBookUpdate (threshold : ℚ) (st : OrderBookManager) (data : BookMessage)
    (now : ℕ) : Except PyErr (OrderBookManager × Bool × Bool × List ArbitrageData) := do
  let pr ← managerHandleBookUpdate st data now
  if pr.2 then
    -- asset_id = data.get("asset_id", ""); outcome_count = len(event.outcomes)
    match pr.1.token_mapper.get_outcome_info (data.asset_id.getD "") with
    | none => .ok (pr.1, true, false, [])
    | some info =>
      match dictGet pr.1.events info.1 with
      | none => .ok (pr.1, true, false, [])
      | some event =>
        if 2 ≤ event.outcomes.length then do
          let res ← checkEvent threshold event
          .ok (pr.1, true, true, res.2)
        else .ok (pr.1, true, false, [])
  else .ok (pr.1, false, false, [])

/-! ## Connection sharding (`multi_poly_websocket.py`) -/

/-- `MultiPolyWebSocket._chunk_asset_ids`: the Python slice loop
`[ids[i:i+c] for i in range(0, len(ids), c)]`, implemented with a fuel
argument equal to the list length so the recursion is structural. -/
def chunkGo (chunk_size : ℕ) : ℕ → List α → List (List α)
  | 0, _ => []
  | _, [] => []
  | fuel + 1, x :: xs =>
    (x :: xs.take (chunk_size - 1)) :: chunkGo chunk_size fuel (xs.drop (chunk_size - 1))

/-- Split the asset ids into consecutive chunks of at most `chunk_size`. -/
def chunkAssetIds (chunk_size : ℕ) (asset_ids : List α) : List (List α) :=
  chunkGo chunk_size asset_ids.length asset_ids

/-! ## Reconnect backoff (`poly_websocket.py`, `_connect`)

The reconnect delay starts at 1 s.  On each failed attempt the loop sleeps
the current delay and then doubles it, capped at 30 s; a successful
connection resets the delay to 1 s. -/

/-- One observable transition of the connection loop. -/
inductive ConnEvent where
  | failure
  | success
  deriving DecidableEq, Repr

/-- `self.reconnect_delay` after one event: `min(delay * 2, 30)` on failure,
reset to `1` on a successful connection. -/
def reconnectStep (delay : ℕ) : ConnEvent → ℕ
  | .failure => min (delay * 2) 30
  | .success => 1

/-- The reconnect delay after a sequence of connection events, starting from
the initial 1 second. -/
def delayAfterEvents (evs : List ConnEvent) : ℕ := evs.foldl reconnectStep 1

/-- The delay slept between attempt `k` (the `k`-th consecutive failure) and
attempt `k+1`: the loop sleeps the delay that was current when attempt `k`
failed, i.e. the state after `k - 1` failures. -/
def delayBeforeNextAttempt (k : ℕ) : ℕ :=
  delayAfterEvents (List.replicate (k - 1) ConnEvent.failure)

/-! ## Lemmas about the stable sort and `mapExcept` -/

theorem mem_insertSorted {lt : α → α → Bool} {x z : α} :
    ∀ {l : List α}, z ∈ insertSorted lt x l → z = x ∨ z ∈ l := by
  intro l
  induction l with
  | nil => intro h; simp [insertSorted] at h; exact Or.inl h
  | cons y ys ih =>
    intro h
    simp only [insertSorted] at h
    by_cases hlt : lt x y = true
    · simp [hlt] at h
      rcases h with h | h | h
      · exact Or.inl h
      · exact Or.inr (by simp [h])
      · exact Or.inr (by simp [h])
    · simp [hlt] at h
      rcases h with h | h
      · exact Or.inr (by simp [h])
      · rcases ih h with h2 | h2
        · exact Or.inl h2
        · exact Or.inr (by simp [h2])

theorem insertSorted_pairwise (R : α → α → Prop) (lt : α → α → Bool)
    (htrans : ∀ a b c, R a b → R b c → R a c)
    (h1 : ∀ a b, lt a b = true → R a b)
    (h2 : ∀ a b, lt a b = false → R b a)
    (x : α) : ∀ {l : List α}, l.Pairwise R → (insertSorted lt x l).Pairwise R := by
  intro l
  induction l with
  | nil => intro _; simp [insertSorted]
  | cons y ys ih =>
    intro hp
    rcases List.pairwise_cons.mp hp with ⟨hy, hys⟩
    simp only [insertSorted]
    by_cases hlt : lt x y = true
    · simp only [hlt, if_true]
      refine List.pairwise_cons.mpr ⟨?_, hp⟩
      intro z hz
      rcases List.mem_cons.mp hz with hz | hz
      · exact hz ▸ h1 x y hlt
      · exact htrans x y z (h1 x y hlt) (hy z hz)
    · simp only [hlt, if_false]
      refine List.pairwise_cons.mpr ⟨?_, ih hys⟩
      intro z hz
      rcases mem_insertSorted hz with hz | hz
      · exact hz ▸ h2 x y (by simpa using hlt)
      · exact hy z hz

theorem stableSort_aux_pairwise (R : α → α → Prop) (lt : α → α → Bool)
    (htrans : ∀ a b c, R a b → R b c → R a c)
    (h1 : ∀ a b, lt a b = true → R a b)
    (h2 : ∀ a b, lt a b = false → R b a) :
    ∀ (xs acc : List α), acc.Pairwise R →
      (xs.foldl (fun a y => insertSorted lt y a) acc).Pairwise R := by
  intro xs
  induction xs with
  | nil => intro acc h; simpa using h
  | cons x xs ih =>
    intro acc h
    simpa using ih (insertSorted lt x acc) (insertSorted_pairwise R lt htrans h1 h2 x h)

theorem stableSort_pairwise (R : α → α → Prop) (lt : α → α → Bool)
    (htrans : ∀ a b c, R a b → R b c → R a c)
    (h1 : ∀ a b, lt a b = true → R a b)
    (h2 : ∀ a b, lt a b = false → R b a)
    (xs : List α) : (stableSort lt xs).Pairwise R :=
  stableSort_aux_pairwise R lt htrans h1 h2 xs [] (List.Pairwise.nil)

theorem insertSorted_perm (lt : α → α → Bool) (x : α) :
    ∀ (l : List α), List.Perm (insertSorted lt x l) (x :: l) := by
  intro l
  induction l with
  | nil => simp [insertSorted]
  | cons y ys ih =>
    simp only [insertSorted]
    by_cases hlt : lt x y = true
    · simp [hlt]
    · simp only [hlt, if_false]
      exact (ih.cons y).trans (List.Perm.swap x y ys)

theorem stableSort_aux_perm (lt : α → α → Bool) :
    ∀ (xs acc : List α), List.Perm (xs.foldl (fun a y => insertSorted lt y a) acc) (xs ++ acc) := by
  intro xs
  induction xs with
  | nil => intro acc; simp
  | cons x xs ih =>
    intro acc
    have h1 : (x :: xs).foldl (fun a y => insertSorted lt y a) acc
        = xs.foldl (fun a y => insertSorted lt y a) (insertSorted lt x acc) := by simp
    rw [h1]
    exact ((ih _).trans ((List.Perm.append_left xs (insertSorted_perm lt x acc)).trans
      (List.perm_middle.trans (List.Perm.refl _)))).trans (List.Perm.refl _)

theorem stableSort_perm (lt : α → α → Bool) (xs : List α) : List.Perm (stableSort lt xs) xs := by
  simpa using stableSort_aux_perm lt xs []

theorem mapExcept_ok_mem_right {f : α → Except ε β} :
    ∀ {l : List α} {ys : List β}, mapExcept f l = .ok ys →
      ∀ y ∈ ys, ∃ x ∈ l, f x = .ok y := by
  intro l
  induction l with
  | nil =>
    intro ys h y hy
    simp [mapExcept] at h
    subst h
    simp at hy
  | cons x xs ih =>
    intro ys h y hy
    simp only [mapExcept, bind, Except.bind] at h
    cases hf : f x with
    | error e => rw [hf] at h; simp at h
    | ok b =>
      rw [hf] at h
      cases hr : mapExcept f xs with
      | error e => rw [hr] at h; simp at h
      | ok bs =>
        rw [hr] at h
        simp only [Except.ok.injEq] at h
        subst h
        rcases List.mem_cons.mp hy with hy | hy
        · exact ⟨x, List.mem_cons_self x xs, hy ▸ hf⟩
        · rcases ih hr y hy with ⟨x2, hx2, hfx2⟩
          exact ⟨x2, List.mem_cons_of_mem x hx2, hfx2⟩

theorem mapExcept_ok_mem_left {f : α → Except ε β} :
    ∀ {l : List α} {ys : List β}, mapExcept f l = .ok ys →
      ∀ x ∈ l, ∃ y ∈ ys, f x = .ok y := by
  intro l
  induction l with
  | nil => intro ys _ x hx; simp at hx
  | cons x xs ih =>
    intro ys h x2 hx2
    simp only [mapExcept, bind, Except.bind] at h
    cases hf : f x with
    | error e => rw [hf] at h; simp at h
    | ok b =>
      rw [hf] at h
      cases hr : mapExcept f xs with
      | error e => rw [hr] at h; simp at h
      | ok bs =>
        rw [hr] at h
        simp only [Except.ok.injEq] at h
        subst h
        rcases List.mem_cons.mp hx2 with hx2 | hx2
        · exact ⟨b, List.mem_cons_self b bs, hx2 ▸ hf⟩
        · rcases ih hr x2 hx2 with ⟨y, hy, hfy⟩
          exact ⟨y, List.mem_cons_of_mem b hy, hfy⟩

/-! ## Claims C4 and C9: `OrderBookSide.update` -/

/-- Spec-side ordering of a book side: descending prices for bids,
ascending for asks. -/
def priceDirLe (is_bids : Bool) (x y : ℚ) : Prop := if is_bids then y ≤ x else x ≤ y

instance (b : Bool) (x y : ℚ) : Decidable (priceDirLe b x y) := by
  unfold priceDirLe; infer_instance

/-- Exact numeric value of a stored level's price (spec side). -/
def levelPriceVal (l : OrderBookLevel) : ℚ := (parseDecimalString l.price).getD 0

/-- The `float()` sort key of a stored level: its price rounded to the
nearest double (spec side). -/
def levelFloatVal (l : OrderBookLevel) : ℚ :=
  floatRound ((parseDecimalString l.price).getD 0)

theorem priceDirLe_refl (b : Bool) (x : ℚ) : priceDirLe b x x := by
  unfold priceDirLe; cases b <;> simp

theorem priceDirLe_trans (b : Bool) {x y z : ℚ} (h1 : priceDirLe b x y)
    (h2 : priceDirLe b y z) : priceDirLe b x z := by
  unfold priceDirLe at h1 h2 ⊢
  cases b <;> simp_all <;> linarith

theorem levelLt_true_dirLe (b : Bool) (x y : ℚ × OrderBookLevel)
    (h : levelLt b x y = true) : priceDirLe b x.1 y.1 := by
  unfold levelLt at h
  unfold priceDirLe
  cases b <;> simp_all <;> linarith

theorem levelLt_false_dirLe (b : Bool) (x y : ℚ × OrderBookLevel)
    (h : levelLt b x y = false) : priceDirLe b y.1 x.1 := by
  unfold levelLt at h
  unfold priceDirLe
  cases b <;> simp_all

/-- The key-building function used in `OrderBookSide.update`. -/
def levelKeyFn (l : RawLevel) : Except PyErr (ℚ × OrderBookLevel) :=
  (pyFloat l.price).map
    (fun q => (q, ({ price := l.price, size := l.size } : OrderBookLevel)))

theorem levelKeyFn_ok {r : RawLevel} {y : ℚ × OrderBookLevel}
    (h : levelKeyFn r = .ok y) :
    y.1 = floatRound ((parseDecimalString r.price).getD 0) ∧
      y.2 = ({ price := r.price, size := r.size } : OrderBookLevel) := by
  obtain ⟨q0, lv⟩ := y
  unfold levelKeyFn pyFloat at h
  cases hp : parseDecimalString r.price with
  | none => rw [hp] at h; simp [Except.map] at h
  | some q =>
    rw [hp] at h
    simp only [Except.map, Except.ok.injEq, Prod.mk.injEq] at h
    obtain ⟨h1, h2⟩ := h
    subst h1
    subst h2
    exact ⟨rfl, rfl⟩

theorem bookSideUpdate_eq (s : OrderBookSide) (input : List RawLevel) :
    OrderBookSide.update s input =
      (if input.isEmpty = true then .ok { s with levels := [] }
       else
         match mapExcept levelKeyFn input with
         | .error e => .error e
         | .ok keyed =>
           .ok { s with levels :=
             ((stableSort (levelLt s.is_bids) keyed).map (fun p => p.2)).take s.max_levels }) := by
  unfold OrderBookSide.update levelKeyFn
  by_cases h : input.isEmpty = true
  · simp [h]
  · simp only [h, if_false]
    cases hk : mapExcept (fun l => (pyFloat l.price).map
        (fun q => (q, ({ price := l.price, size := l.size } : OrderBookLevel)))) input with
    | error e => simp [bind, Except.bind, hk]
    | ok keyed => simp [bind, Except.bind, hk]

/-- A member of a `take`'s `head?` is the head of the full list. -/
theorem head?_take_mem {l : List α} {n : ℕ} {b : α} (h : b ∈ (l.take n).head?) :
    b ∈ l.head? := by
  cases l with
  | nil => simp at h
  | cons x xs =>
    cases n with
    | zero => simp at h
    | succ n => simpa using h

/--
C4 (amended).  For every input list of `(price, size)` pairs to
`OrderBookSide.update` that completes without error: the resulting levels
sequence has length at most `max_levels`, is sorted by the IEEE-754 double
value of the price — the program's `float()` sort key — descending for bids
and ascending for asks, an empty input yields an empty side, and the first
element, when present, is best by that double key among all input levels.
-/
theorem bookSideUpdate_bounded_sorted (s : OrderBookSide) (input : List RawLevel)
    (s2 : OrderBookSide) (hrun : OrderBookSide.update s input = .ok s2) :
    s2.levels.length ≤ s.max_levels ∧
    (input = [] → s2.levels = []) ∧
    s2.levels.Pairwise (fun a b => priceDirLe s.is_bids (levelFloatVal a) (levelFloatVal b)) ∧
    ∀ b ∈ s2.levels.head?, ∀ r ∈ input,
      priceDirLe s.is_bids (levelFloatVal b)
        (floatRound ((parseDecimalString r.price).getD 0)) := by
  rw [bookSideUpdate_eq] at hrun
  by_cases hin : input.isEmpty = true
  · rw [if_pos hin] at hrun
    simp only [Except.ok.injEq] at hrun
    subst hrun
    refine ⟨by simp, fun _ => rfl, by simp, ?_⟩
    intro b hb
    simp at hb
  · rw [if_neg hin] at hrun
    cases hk : mapExcept levelKeyFn input with
    | error e => rw [hk] at hrun; simp at hrun
    | ok keyed =>
      rw [hk] at hrun
      simp only [Except.ok.injEq] at hrun
      subst hrun
      have hperm := stableSort_perm (levelLt s.is_bids) keyed
      have hpair : (stableSort (levelLt s.is_bids) keyed).Pairwise
          (fun a b => priceDirLe s.is_bids a.1 b.1) :=
        stableSort_pairwise (fun a b => priceDirLe s.is_bids a.1 b.1)
          (levelLt s.is_bids)
          (fun a b c (h1 : priceDirLe s.is_bids a.1 b.1)
              (h2 : priceDirLe s.is_bids b.1 c.1) => priceDirLe_trans s.is_bids h1 h2)
          (fun a b h => levelLt_true_dirLe s.is_bids a b h)
          (fun a b h => levelLt_false_dirLe s.is_bids a b h) keyed
      have hkey : ∀ y ∈ stableSort (levelLt s.is_bids) keyed,
          y.1 = levelFloatVal y.2 := by
        intro y hy
        have hy2 : y ∈ keyed := (hperm.mem_iff).mp hy
        rcases mapExcept_ok_mem_right hk y hy2 with ⟨r, _, hfr⟩
        rcases levelKeyFn_ok hfr with ⟨hp1, hp2⟩
        rw [hp1, hp2]
        rfl
      constructor
      · simp [List.length_take_le]
      constructor
      · intro h; subst h; simp at hin
      constructor
      · have hpair2 : ((stableSort (levelLt s.is_bids) keyed).map (fun p => p.2)).Pairwise
            (fun a b => priceDirLe s.is_bids (levelFloatVal a) (levelFloatVal b)) := by
          rw [List.pairwise_map]
          refine hpair.imp_of_mem ?_
          intro a b ha hb hab
          rw [← hkey a ha, ← hkey b hb]
          exact hab
        exact List.Pairwise.sublist (List.take_sublist _ _) hpair2
      · intro b hb r hr
        have hb2 : b ∈ ((stableSort (levelLt s.is_bids) keyed).map (fun p => p.2)).head? :=
          head?_take_mem hb
        cases hsl : stableSort (levelLt s.is_bids) keyed with
        | nil => rw [hsl] at hb2; simp at hb2
        | cons hd tl =>
          rw [hsl] at hb2
          simp only [List.map_cons, List.head?_cons, Option.mem_def, Option.some.injEq] at hb2
          rcases mapExcept_ok_mem_left hk r hr with ⟨y, hy, hfy⟩
          rcases levelKeyFn_ok hfy with ⟨hyp, _⟩
          have hy2 : y ∈ stableSort (levelLt s.is_bids) keyed := (hperm.mem_iff).mpr hy
          have hrel : priceDirLe s.is_bids hd.1 y.1 := by
            rw [hsl] at hy2
            rcases List.mem_cons.mp hy2 with h | h
            · subst h; exact priceDirLe_refl _ _
            · rw [hsl] at hpair
              exact (List.pairwise_cons.mp hpair).1 y h
          have hvb : levelFloatVal b = hd.1 := by
            have hmem : hd ∈ stableSort (levelLt s.is_bids) keyed := by
              rw [hsl]; exact List.mem_cons_self hd tl
            rw [← hb2]
            exact (hkey hd hmem).symm
          have hvr : floatRound ((parseDecimalString r.price).getD 0) = y.1 := hyp.symm
          rw [hvb, hvr]
          exact hrel

/-- Sample inputs exercising `OrderBookSide.update` on an ask side. -/
def sampleAskSide : OrderBookSide :=
  { levels := [{ price := "0.9", size := "1" }], max_levels := 2, is_bids := false }

/-- A three-level replacement snapshot. -/
def sampleLevels : List RawLevel :=
  [{ price := "0.5", size := "1" }, { price := "0.3", size := "2" },
   { price := "0.4", size := "3" }]

/-- The side produced by applying `sampleLevels` to `sampleAskSide`. -/
def sampleUpdatedSide : OrderBookSide :=
  { levels := [{ price := "0.3", size := "2" }, { price := "0.4", size := "3" }],
    max_levels := 2, is_bids := false }

/-- Witness for C4 at a concrete input. -/
theorem bookSideUpdate_bounded_sorted_witness :
    sampleUpdatedSide.levels.length ≤ sampleAskSide.max_levels ∧
    (sampleLevels = [] → sampleUpdatedSide.levels = []) ∧
    sampleUpdatedSide.levels.Pairwise
      (fun a b => priceDirLe sampleAskSide.is_bids (levelFloatVal a) (levelFloatVal b)) ∧
    ∀ b ∈ sampleUpdatedSide.levels.head?, ∀ r ∈ sampleLevels,
      priceDirLe sampleAskSide.is_bids (levelFloatVal b)
        (floatRound ((parseDecimalString r.price).getD 0)) :=
  bookSideUpdate_bounded_sorted sampleAskSide sampleLevels sampleUpdatedSide (by decide)

/-- Two distinct prices that collide as IEEE-754 doubles. -/
def collideInput : List RawLevel :=
  [{ price := "0.1000000000000000000001", size := "1" },
   { price := "0.1", size := "2" }]

/-- The ask side the program produces from `collideInput`: input order,
because the double sort keys are equal and the sort is stable. -/
def collideOut : OrderBookSide :=
  { levels := [{ price := "0.1000000000000000000001", size := "1" },
               { price := "0.1", size := "2" }],
    max_levels := 2, is_bids := false }

/--
C4 (counterexample).  On an ask side the update stores
`"0.1000000000000000000001"` before `"0.1"`: both prices round to the same
double, the stable sort keeps input order, and the stored sequence is not
ascending by exact numeric price value — its first element is not the best
exact price.
-/
theorem bookSideSort_claim_false :
    OrderBookSide.update { levels := [], max_levels := 2, is_bids := false } collideInput =
      .ok collideOut ∧
    levelPriceVal { price := "0.1", size := "2" } <
      levelPriceVal { price := "0.1000000000000000000001", size := "1" } :=
  ⟨by decide, by decide⟩

/--
C9.  `OrderBookSide.update` is an idempotent full replace: a successful
update followed by the same update yields the identical side, and every
stored level comes from the new input (stale levels are dropped).
-/
theorem bookSideUpdate_idempotent (s : OrderBookSide) (input : List RawLevel)
    (s2 : OrderBookSide) (hrun : OrderBookSide.update s input = .ok s2) :
    OrderBookSide.update s2 input = .ok s2 ∧
    ∀ l ∈ s2.levels, ∃ r ∈ input,
      l = ({ price := r.price, size := r.size } : OrderBookLevel) := by
  rw [bookSideUpdate_eq] at hrun
  by_cases hin : input.isEmpty = true
  · rw [if_pos hin] at hrun
    simp only [Except.ok.injEq] at hrun
    subst hrun
    constructor
    · rw [bookSideUpdate_eq, if_pos hin]
    · intro l hl; simp at hl
  · rw [if_neg hin] at hrun
    cases hk : mapExcept levelKeyFn input with
    | error e => rw [hk] at hrun; simp at hrun
    | ok keyed =>
      rw [hk] at hrun
      simp only [Except.ok.injEq] at hrun
      subst hrun
      constructor
      · rw [bookSideUpdate_eq, if_neg hin, hk]
      · intro l hl
        simp only at hl
        have hl2 : l ∈ (stableSort (levelLt s.is_bids) keyed).map (fun p => p.2) :=
          (List.take_sublist _ _).subset hl
        rcases List.mem_map.mp hl2 with ⟨y, hy, hyl⟩
        have hy2 : y ∈ keyed := ((stableSort_perm _ keyed).mem_iff).mp hy
        rcases mapExcept_ok_mem_right hk y hy2 with ⟨r, hr, hfr⟩
        exact ⟨r, hr, by rw [← hyl, (levelKeyFn_ok hfr).2]⟩

/-- Witness for C9 at a concrete input. -/
theorem bookSideUpdate_idempotent_witness :
    OrderBookSide.update sampleUpdatedSide sampleLevels = .ok sampleUpdatedSide ∧
    ∀ l ∈ sampleUpdatedSide.levels, ∃ r ∈ sampleLevels,
      l = ({ price := r.price, size := r.size } : OrderBookLevel) :=
  bookSideUpdate_idempotent sampleAskSide sampleLevels sampleUpdatedSide (by decide)

/-! ## Claim C8: token mapping is total, stable and never shrinks -/

theorem dictGet_dictInsert_self {β : Type u} (l : List (String × β)) (k : String) (v : β) :
    dictGet (dictInsert l k v) k = some v := by
  induction l with
  | nil => simp [dictInsert, dictGet, List.find?]
  | cons p ps ih =>
    by_cases h : p.1 = k
    · simp [dictInsert, h, dictGet, List.find?]
    · simp only [dictInsert, h, if_false]
      unfold dictGet
      rw [List.find?]
      simp only [decide_eq_true_eq, h, decide_False]
      exact ih

theorem dictGet_dictInsert_ne {β : Type u} (l : List (String × β)) (k k2 : String) (v : β)
    (h : k2 ≠ k) : dictGet (dictInsert l k v) k2 = dictGet l k2 := by
  induction l with
  | nil =>
    simp only [dictInsert, dictGet, List.find?]
    have : ¬ (k = k2) := fun hh => h hh.symm
    simp [this]
  | cons p ps ih =>
    by_cases hp : p.1 = k
    · simp only [dictInsert, hp, if_true]
      unfold dictGet
      rw [List.find?, List.find?]
      have h1 : ¬ (k = k2) := fun hh => h hh.symm
      have h2 : ¬ (p.1 = k2) := by rw [hp]; exact h1
      simp [h1, h2]
    · simp only [dictInsert, hp, if_false]
      unfold dictGet
      rw [List.find?, List.find?]
      by_cases hq : p.1 = k2
      · simp [hq]
      · simp only [decide_eq_true_eq, hq, decide_False]
        exact ih

theorem dictGet_dictInsert_isSome {β : Type u} (l : List (String × β)) (k k2 : String)
    (v : β) (h : (dictGet l k2).isSome = true) :
    (dictGet (dictInsert l k v) k2).isSome = true := by
  by_cases hk : k2 = k
  · subst hk; rw [dictGet_dictInsert_self]; rfl
  · rw [dictGet_dictInsert_ne l k k2 v hk]; exact h

theorem addEventFold_get_notin (eid t : String) :
    ∀ (l : List (String × Outcome)) (acc : List (String × (String × String × Side))),
      t ∉ outcomesTokenIds l → dictGet (addEventFold eid acc l) t = dictGet acc t := by
  intro l
  induction l with
  | nil => intro acc _; rfl
  | cons p rest ih =>
    intro acc ht
    simp only [outcomesTokenIds, List.mem_cons, not_or] at ht
    obtain ⟨h1, h2, h3⟩ := ht
    rw [addEventFold]
    rw [ih _ h3, dictGet_dictInsert_ne _ _ _ _ h2, dictGet_dictInsert_ne _ _ _ _ h1]

theorem addEventFold_isSome (eid t : String) :
    ∀ (l : List (String × Outcome)) (acc : List (String × (String × String × Side))),
      (dictGet acc t).isSome = true →
      (dictGet (addEventFold eid acc l) t).isSome = true := by
  intro l
  induction l with
  | nil => intro acc h; exact h
  | cons p rest ih =>
    intro acc h
    rw [addEventFold]
    exact ih _ (dictGet_dictInsert_isSome _ _ _ _ (dictGet_dictInsert_isSome _ _ _ _ h))

theorem addEventFold_mem_isSome (eid t : String) :
    ∀ (l : List (String × Outcome)) (acc : List (String × (String × String × Side))),
      t ∈ outcomesTokenIds l →
      (dictGet (addEventFold eid acc l) t).isSome = true := by
  intro l
  induction l with
  | nil => intro acc h; simp [outcomesTokenIds] at h
  | cons p rest ih =>
    intro acc ht
    simp only [outcomesTokenIds, List.mem_cons] at ht
    rw [addEventFold]
    rcases ht with h | h | h
    · subst h
      apply addEventFold_isSome
      apply dictGet_dictInsert_isSome
      rw [dictGet_dictInsert_self]
      rfl
    · subst h
      apply addEventFold_isSome
      rw [dictGet_dictInsert_self]
      rfl
    · exact ih _ h

theorem addEventFold_nodup_get (eid : String) :
    ∀ (l : List (String × Outcome)) (acc : List (String × (String × String × Side))),
      (outcomesTokenIds l).Nodup →
      ∀ p ∈ l,
        dictGet (addEventFold eid acc l) p.2.yes.token_id = some (eid, p.1, Side.yes) ∧
        dictGet (addEventFold eid acc l) p.2.no.token_id = some (eid, p.1, Side.no) := by
  intro l
  induction l with
  | nil => intro acc _ p hp; simp at hp
  | cons q rest ih =>
    intro acc hnd p hp
    simp only [outcomesTokenIds, List.nodup_cons, List.mem_cons, not_or] at hnd
    obtain ⟨⟨hyn, hyr⟩, hnr, hrest⟩ := hnd
    rcases List.mem_cons.mp hp with hp | hp
    · subst hp
      rw [addEventFold]
      constructor
      · rw [addEventFold_get_notin _ _ _ _ hyr,
          dictGet_dictInsert_ne _ _ _ _ hyn, dictGet_dictInsert_self]
      · rw [addEventFold_get_notin _ _ _ _ hnr, dictGet_dictInsert_self]
    · rw [addEventFold]
      exact ih _ hrest p hp

/--
C8.  Token lookup is total and stable: every token id registered by
`TokenMapper.add_event` resolves afterwards (and, when the event's token ids
are distinct, resolves to exactly its `(event_id, market_id, side)` tuple);
tokens not named by the event keep their previous mapping unchanged, and no
`add_event` call ever removes a mapping (resolvable ids stay resolvable).
-/
theorem tokenMapper_total_stable (m : TokenMapper) (e : Event) (t : String) :
    ((m.get_outcome_info t).isSome = true →
      ((m.add_event e).get_outcome_info t).isSome = true) ∧
    (t ∉ outcomesTokenIds e.outcomes →
      (m.add_event e).get_outcome_info t = m.get_outcome_info t) ∧
    (t ∈ outcomesTokenIds e.outcomes →
      ((m.add_event e).get_outcome_info t).isSome = true) ∧
    ((outcomesTokenIds e.outcomes).Nodup → ∀ p ∈ e.outcomes,
      (m.add_event e).get_outcome_info p.2.yes.token_id =
        some (toString e.event_id, p.1, Side.yes) ∧
      (m.add_event e).get_outcome_info p.2.no.token_id =
        some (toString e.event_id, p.1, Side.no)) := by
  refine ⟨?_, ?_, ?_, ?_⟩
  · intro h
    exact addEventFold_isSome _ _ e.outcomes m.token_to_outcome h
  · intro h
    exact addEventFold_get_notin _ _ e.outcomes m.token_to_outcome h
  · intro h
    exact addEventFold_mem_isSome _ _ e.outcomes m.token_to_outcome h
  · intro hnd p hp
    exact addEventFold_nodup_get _ e.outcomes m.token_to_outcome hnd p hp

/-- An outcome with empty books, for token-mapper examples. -/
def tokOutcome (title mid ytok ntok : String) : Outcome :=
  { title := title, market_id := mid,
    yes := { token_id := ytok,
             order_book := { bids := { levels := [], max_levels := 2, is_bids := true },
                             asks := { levels := [], max_levels := 2, is_bids := false },
                             last_updated := none } },
    no := { token_id := ntok,
            order_book := { bids := { levels := [], max_levels := 2, is_bids := true },
                            asks := { levels := [], max_levels := 2, is_bids := false },
                            last_updated := none } } }

/-- A two-outcome event for token-mapper examples. -/
def sampleTokenEvent : Event :=
  { event_id := 3, title := "TokEvent",
    outcomes := [("m1", tokOutcome "O1" "m1" "y1" "n1"),
                 ("m2", tokOutcome "O2" "m2" "y2" "n2")] }

/-- A mapper already holding a binding for an unrelated event. -/
def tokBaseMapper : TokenMapper := ⟨[("zz", ("9", "mz", Side.yes))]⟩

/-- Witness for C8 at a concrete mapper and event. -/
theorem tokenMapper_total_stable_witness :
    ((tokBaseMapper.add_event sampleTokenEvent).get_outcome_info "zz").isSome = true ∧
    (tokBaseMapper.add_event sampleTokenEvent).get_outcome_info "zz" =
      tokBaseMapper.get_outcome_info "zz" ∧
    ((tokBaseMapper.add_event sampleTokenEvent).get_outcome_info "y1").isSome = true ∧
    (tokBaseMapper.add_event sampleTokenEvent).get_outcome_info "y2" =
      some ("3", "m2", Side.yes) :=
  ⟨(tokenMapper_total_stable tokBaseMapper sampleTokenEvent "zz").1 (by decide),
   (tokenMapper_total_stable tokBaseMapper sampleTokenEvent "zz").2.1 (by decide),
   (tokenMapper_total_stable tokBaseMapper sampleTokenEvent "y1").2.2.1 (by decide),
   ((tokenMapper_total_stable tokBaseMapper sampleTokenEvent "y2").2.2.2 (by decide)
      ("m2", tokOutcome "O2" "m2" "y2" "n2") (by decide)).1⟩

/-! ## Claim C10: `OrderBook.update` defaults and timestamping -/

theorem bookSideUpdate_nil (s : OrderBookSide) :
    OrderBookSide.update s [] = .ok { s with levels := [] } := by
  rw [bookSideUpdate_eq]
  simp

/--
C10.  A `bids` or `asks` key absent from the update message is treated as an
empty level list, so an update carrying only asks clears all stored bid
levels (and vice versa), and `last_updated` is set on every completed call,
even when both keys are absent.
-/
theorem orderBook_update_defaults (b : OrderBook) (data : BookMessage) (now : ℕ) :
    (data.bids = none → data.asks = none →
      OrderBook.update b data now =
        .ok { bids := { b.bids with levels := [] },
              asks := { b.asks with levels := [] }, last_updated := some now }) ∧
    ∀ r, OrderBook.update b data now = .ok r →
      (data.bids = none → r.bids.levels = []) ∧
      (data.asks = none → r.asks.levels = []) ∧
      r.last_updated = some now := by
  constructor
  · intro hb ha
    unfold OrderBook.update
    rw [hb, ha]
    simp only [Option.getD_none]
    rw [bookSideUpdate_nil, bookSideUpdate_nil]
    rfl
  · intro r hr
    unfold OrderBook.update at hr
    cases hb : b.bids.update (data.bids.getD []) with
    | error e => rw [hb] at hr; simp [bind, Except.bind] at hr
    | ok nb =>
      rw [hb] at hr
      cases ha : b.asks.update (data.asks.getD []) with
      | error e => rw [ha] at hr; simp [bind, Except.bind] at hr
      | ok na =>
        rw [ha] at hr
        simp only [bind, Except.bind, Except.ok.injEq] at hr
        subst hr
        refine ⟨?_, ?_, rfl⟩
        · intro hbn
          rw [hbn] at hb
          simp only [Option.getD_none, bookSideUpdate_nil, Except.ok.injEq] at hb
          rw [← hb]
        · intro han
          rw [han] at ha
          simp only [Option.getD_none, bookSideUpdate_nil, Except.ok.injEq] at ha
          rw [← ha]

/-- A book with stored levels on both sides. -/
def sampleBook : OrderBook :=
  { bids := { levels := [{ price := "0.2", size := "7" }], max_levels := 2, is_bids := true },
    asks := { levels := [{ price := "0.8", size := "3" }], max_levels := 2, is_bids := false },
    last_updated := none }

/-- An update message carrying only asks. -/
def asksOnlyMessage : BookMessage :=
  { asset_id := some "t1", bids := none, asks := some [{ price := "0.6", size := "4" }] }

/-- The book produced by applying `asksOnlyMessage` to `sampleBook`. -/
def updatedSampleBook : OrderBook :=
  { bids := { levels := [], max_levels := 2, is_bids := true },
    asks := { levels := [{ price := "0.6", size := "4" }],
              max_levels := 2, is_bids := false },
    last_updated := some 5 }

/-- Witness for C10: an asks-only update clears the stored bids and stamps
`last_updated`. -/
theorem orderBook_update_defaults_witness :
    updatedSampleBook.bids.levels = [] ∧ updatedSampleBook.last_updated = some 5 :=
  ⟨((orderBook_update_defaults sampleBook asksOnlyMessage 5).2 updatedSampleBook
      (by decide)).1 rfl,
   ((orderBook_update_defaults sampleBook asksOnlyMessage 5).2 updatedSampleBook
      (by decide)).2.2⟩

/-! ## Claims C1, C7 and C3: `check_event` -/

/-- Spec-side view of one outcome's best YES ask: the parsed `(price, size)`
of the first ask level, or `none` when the level is missing or unparseable. -/
def specParsedAsk (o : Outcome) : Option (ℚ × ℚ) :=
  match o.yes.order_book.asks.bestLevel with
  | none => none
  | some l =>
    match parseDecimalString l.price, parseDecimalString l.size with
    | some p, some s => some (p, s)
    | _, _ => none

/-- The parsed best asks contributed by a list of outcomes, in order. -/
def specAskList (l : List (String × Outcome)) : List (ℚ × ℚ) :=
  l.filterMap (fun p => specParsedAsk p.2)

/-- The contributed best-ask prices, in order. -/
def askPrices (l : List (String × Outcome)) : List ℚ :=
  (specAskList l).map (fun q => q.1)

/-- The exact rational sum of the contributed best-ask prices. -/
def specAskSum (l : List (String × Outcome)) : ℚ := (askPrices l).sum

/-- The running cost sum as `Decimal` addition computes it: each partial
sum rounded half-even to 28 significant digits. -/
def costFoldFrom (s : ℚ) : List ℚ → ℚ
  | [] => s
  | p :: rest => costFoldFrom (decimalRound28 (s + p)) rest

/-- The cost sum `check_event` accumulates over an outcome list. -/
def specCostSum (l : List (String × Outcome)) : ℚ := costFoldFrom 0 (askPrices l)

/-- The number of outcomes contributing ask data. -/
def specAskCount (l : List (String × Outcome)) : ℕ := (specAskList l).length

/-- The `asks_data` entries accumulated by `check_event`, described
list-comprehension style. -/
def specEntries (l : List (String × Outcome)) : List AsksEntry :=
  l.filterMap (fun p => (specParsedAsk p.2).map (fun q => mkAsksEntry p.2 q.1 q.2))

/-- Hypothesis that every present best ask level parses cleanly, so the
`Decimal` conversions in `check_event` neither skip a level nor raise. -/
def asksParseOk (l : List (String × Outcome)) : Prop :=
  ∀ p ∈ l, getDecimalValue p.2.yes.order_book.asks.bestLevel = .ok (specParsedAsk p.2)

instance (l : List (String × Outcome)) : Decidable (asksParseOk l) := by
  unfold asksParseOk; infer_instance

theorem checkScan_ok :
    ∀ (l : List (String × Outcome)), asksParseOk l →
      ∀ acc, checkScan acc l =
        .ok (acc.1 ++ specEntries l, costFoldFrom acc.2.1 (askPrices l),
          acc.2.2 + specAskCount l) := by
  intro l
  induction l with
  | nil =>
    intro _ acc
    simp [checkScan, specEntries, specAskCount, specAskList, askPrices, costFoldFrom]
  | cons p rest ih =>
    intro h acc
    have hp : getDecimalValue p.2.yes.order_book.asks.bestLevel = .ok (specParsedAsk p.2) :=
      h p (List.mem_cons_self p rest)
    have hrest : asksParseOk rest := fun q hq => h q (List.mem_cons_of_mem p hq)
    rw [checkScan]
    rw [hp]
    simp only [bind, Except.bind]
    cases hs : specParsedAsk p.2 with
    | none =>
      rw [ih hrest acc]
      simp [specEntries, specAskCount, specAskList, askPrices, hs]
    | some q =>
      dsimp only
      rw [ih hrest (acc.1 ++ [mkAsksEntry p.2 q.1 q.2],
        decimalRound28 (acc.2.1 + q.1), acc.2.2 + 1)]
      simp only [specEntries, specAskCount, specAskList, askPrices, costFoldFrom, hs,
        List.filterMap_cons, Option.map_some, List.map_cons,
        List.length_cons, Except.ok.injEq, Prod.mk.injEq]
      refine ⟨?_, ?_, ?_⟩
      · simp
      · trivial
      · omega

/-- The opportunity record emitted for an event whose accumulated cost sum
is `specCostSum` (spec side). -/
def mkArb (threshold : ℚ) (e : Event) : ArbitrageData :=
  { event_id := e.event_id, event_title := e.title, threshold := threshold,
    cost_sum := specCostSum e.outcomes, is_arbitrage := true,
    outcomes := specEntries e.outcomes }

/--
C1 (amended).  For every event whose present ask levels parse: `check_event`
emits an opportunity record (and returns it) exactly when at least one
outcome contributed ask data and the accumulated cost sum — computed with
`Decimal` addition, i.e. each partial sum rounded half-even to 28
significant digits — is at most the threshold; when zero outcomes have ask
data it returns `none` and emits nothing; the decision boundary moves with
the threshold alone (`0.97` is an opportunity at threshold `0.99` but not
at `0.95`, see the witness).
-/
theorem checkEvent_opportunity_iff (threshold : ℚ) (e : Event)
    (hp : asksParseOk e.outcomes) :
    (specAskCount e.outcomes = 0 → checkEvent threshold e = .ok (none, [])) ∧
    (1 ≤ specAskCount e.outcomes → specCostSum e.outcomes ≤ threshold →
      checkEvent threshold e =
        .ok (some (mkArb threshold e), [mkArb threshold e])) ∧
    (1 ≤ specAskCount e.outcomes → ¬ specCostSum e.outcomes ≤ threshold →
      checkEvent threshold e = .ok (none, [])) := by
  have hscan : checkScan ([], 0, 0) e.outcomes =
      .ok (specEntries e.outcomes, specCostSum e.outcomes, specAskCount e.outcomes) := by
    have := checkScan_ok e.outcomes hp ([], 0, 0)
    simpa [specCostSum] using this
  unfold checkEvent
  rw [hscan]
  simp only [bind, Except.bind]
  refine ⟨?_, ?_, ?_⟩
  · intro h0
    simp [h0]
  · intro h1 h2
    have h0 : ¬ specAskCount e.outcomes = 0 := by omega
    simp [h0, h2, mkArb]
  · intro h1 h2
    have h0 : ¬ specAskCount e.outcomes = 0 := by omega
    simp [h0, h2]

/-- Projection: whether `check_event` returned (and logged) a record. -/
def checkEventEmits (threshold : ℚ) (e : Event) : Option Bool :=
  match checkEvent threshold e with
  | .ok r => some r.1.isSome
  | .error _ => none

/-- A one-ask outcome used in concrete analyzer examples. -/
def askOutcome (title mid ytok price size : String) : Outcome :=
  { title := title, market_id := mid,
    yes := { token_id := ytok,
             order_book := { bids := { levels := [], max_levels := 2, is_bids := true },
                             asks := { levels := [{ price := price, size := size }],
                                       max_levels := 2, is_bids := false },
                             last_updated := some 0 } },
    no := { token_id := ytok ++ "n",
            order_book := { bids := { levels := [], max_levels := 2, is_bids := true },
                            asks := { levels := [], max_levels := 2, is_bids := false },
                            last_updated := none } } }

/-- A two-outcome event whose best asks sum to exactly `0.97`. -/
def sampleEvent97 : Event :=
  { event_id := 7, title := "E97",
    outcomes := [("m1", askOutcome "O1" "m1" "t1" "0.47" "10"),
                 ("m2", askOutcome "O2" "m2" "t2" "0.50" "5")] }

/-- Witness for C1: `S = 0.97` is an opportunity at threshold `0.99` but
not at threshold `0.95`. -/
theorem checkEvent_opportunity_iff_witness :
    checkEvent (mkRat 99 100) sampleEvent97 =
      .ok (some (mkArb (mkRat 99 100) sampleEvent97),
        [mkArb (mkRat 99 100) sampleEvent97]) ∧
    checkEvent (mkRat 95 100) sampleEvent97 = .ok (none, []) :=
  ⟨(checkEvent_opportunity_iff (mkRat 99 100) sampleEvent97 (by decide)).2.1
      (by decide) (by decide),
   (checkEvent_opportunity_iff (mkRat 95 100) sampleEvent97 (by decide)).2.2
      (by decide) (by decide)⟩

/-- An event whose exact best-ask sum is `0.99000000000000000000000000001`,
one price carrying 29 significant digits. -/
def precEvent : Event :=
  { event_id := 11, title := "Prec",
    outcomes := [("m1", askOutcome "P1" "m1" "p1" "0.49" "1"),
                 ("m2", askOutcome "P2" "m2" "p2"
                   "0.50000000000000000000000000001" "1")] }

/--
C1 (counterexample).  At threshold `0.99` the program emits an opportunity
for `precEvent` although the exact sum `S` of the best asks exceeds `0.99`:
`Decimal` addition rounds the 29-digit exact sum half-even to 28
significant digits, landing exactly on the threshold, so emission is not
equivalent to `S ≤ threshold`.
-/
theorem checkEvent_boundary_claim_false :
    checkEventEmits (mkRat 99 100) precEvent = some true ∧
    1 ≤ specAskCount precEvent.outcomes ∧
    ¬ specAskSum precEvent.outcomes ≤ mkRat 99 100 :=
  ⟨by decide, by decide, by decide⟩

/-- `sumFitsPrec s l`: every partial sum of the prices `l`, starting from
`s`, fits in 28 significant digits, so `Decimal` addition never rounds. -/
def sumFitsPrec : ℚ → List ℚ → Prop
  | _, [] => True
  | s, p :: rest => decimalRound28 (s + p) = s + p ∧ sumFitsPrec (s + p) rest

instance instSumFitsPrecDec : (s : ℚ) → (l : List ℚ) → Decidable (sumFitsPrec s l)
  | _, [] => isTrue trivial
  | s, p :: rest =>
    haveI : Decidable (sumFitsPrec (s + p) rest) := instSumFitsPrecDec (s + p) rest
    inferInstanceAs (Decidable (decimalRound28 (s + p) = s + p ∧ sumFitsPrec (s + p) rest))

theorem costFoldFrom_fits : ∀ (l : List ℚ) (s : ℚ), sumFitsPrec s l →
    costFoldFrom s l = s + l.sum := by
  intro l
  induction l with
  | nil => intro s _; simp [costFoldFrom]
  | cons p rest ih =>
    intro s hfit
    simp only [sumFitsPrec] at hfit
    obtain ⟨h1, h2⟩ := hfit
    rw [costFoldFrom, h1, ih (s + p) h2, List.sum_cons]
    ring

/--
C7 (amended).  The cost sum `check_event` computes is the `Decimal` running
sum of the contributed best-ask prices: the exact rational sum with each
partial sum rounded half-even to the context's 28 significant digits — no
binary floating point anywhere; whenever every partial sum fits in 28
significant digits it coincides with the exact rational sum.
-/
theorem checkEvent_cost_sum (e : Event) (hp : asksParseOk e.outcomes) :
    (checkScan ([], 0, 0) e.outcomes =
      .ok (specEntries e.outcomes, specCostSum e.outcomes, specAskCount e.outcomes)) ∧
    (∀ threshold d log, checkEvent threshold e = .ok (some d, log) →
      d.cost_sum = specCostSum e.outcomes) ∧
    (sumFitsPrec 0 (askPrices e.outcomes) →
      specCostSum e.outcomes = specAskSum e.outcomes) := by
  have hscan : checkScan ([], 0, 0) e.outcomes =
      .ok (specEntries e.outcomes, specCostSum e.outcomes, specAskCount e.outcomes) := by
    have := checkScan_ok e.outcomes hp ([], 0, 0)
    simpa [specCostSum] using this
  refine ⟨hscan, ?_, ?_⟩
  · intro threshold d log hrun
    unfold checkEvent at hrun
    rw [hscan] at hrun
    simp only [bind, Except.bind] at hrun
    by_cases h0 : specAskCount e.outcomes = 0
    · simp [h0] at hrun
    · simp only [h0, if_false] at hrun
      by_cases h2 : specCostSum e.outcomes ≤ threshold
      · simp only [h2, decide_True, if_true, Except.ok.injEq, Prod.mk.injEq,
          Option.some.injEq] at hrun
        rw [← hrun.1]
      · simp [h2] at hrun
  · intro hfit
    unfold specCostSum specAskSum
    rw [costFoldFrom_fits (askPrices e.outcomes) 0 hfit]
    ring

/-- Witness for C7 at a concrete event whose partial sums never round. -/
theorem checkEvent_cost_sum_witness :
    checkScan ([], 0, 0) sampleEvent97.outcomes =
      .ok (specEntries sampleEvent97.outcomes, specCostSum sampleEvent97.outcomes,
        specAskCount sampleEvent97.outcomes) ∧
    (mkArb (mkRat 99 100) sampleEvent97).cost_sum = specCostSum sampleEvent97.outcomes ∧
    specCostSum sampleEvent97.outcomes = specAskSum sampleEvent97.outcomes :=
  ⟨(checkEvent_cost_sum sampleEvent97 (by decide)).1,
   (checkEvent_cost_sum sampleEvent97 (by decide)).2.1 (mkRat 99 100)
     (mkArb (mkRat 99 100) sampleEvent97) [mkArb (mkRat 99 100) sampleEvent97]
     (by decide),
   (checkEvent_cost_sum sampleEvent97 (by decide)).2.2 (by decide)⟩

/-- Projection: the `cost_sum` of the record `check_event` emitted, if any. -/
def checkEventCostSum (threshold : ℚ) (e : Event) : Option ℚ :=
  match checkEvent threshold e with
  | .ok (some d, _) => some d.cost_sum
  | _ => none

/--
C7 (counterexample).  The cost sum the program computes for `precEvent` is
exactly `0.99` — the 28-digit rounding of the exact sum — while the exact
rational sum of the two prices is strictly larger: the program's cost sum is
not the exact rational sum.
-/
theorem costSum_exactness_false :
    checkEventCostSum (mkRat 99 100) precEvent = some (mkRat 99 100) ∧
    specAskSum precEvent.outcomes ≠ mkRat 99 100 ∧
    specCostSum precEvent.outcomes ≠ specAskSum precEvent.outcomes :=
  ⟨by decide, by decide, by decide⟩

/-- An event whose single outcome has a best ask with unparseable size. -/
def badSizeEvent : Event :=
  { event_id := 9, title := "Bad",
    outcomes := [("m1", askOutcome "O1" "m1" "t1" "0.5" "abc")] }

/--
C3 (code bug evidence).  A level whose size is not parseable as a decimal
makes `Decimal(...)` raise `decimal.InvalidOperation`, which the
`except (ValueError, TypeError)` clause of `_get_decimal_value` does not
catch, so `check_event` aborts with the exception instead of dropping the
level; and a level whose price is not parseable makes the `float(...)` sort
key in `OrderBookSide.update` raise `ValueError`, aborting the entire side
update instead of dropping that level.
-/
theorem conversionError_escapes :
    checkEvent (mkRat 99 100) badSizeEvent = .error PyErr.invalidOperation ∧
    OrderBookSide.update { levels := [], max_levels := 2, is_bids := false }
      [{ price := "abc", size := "5" }] = .error PyErr.valueError :=
  ⟨by decide, by decide⟩

/-! ## Claim C5: connection sharding -/

theorem chunkGo_flatten {α : Type u} (c : ℕ) :
    ∀ (fuel : ℕ) (xs : List α), xs.length ≤ fuel → (chunkGo c fuel xs).flatten = xs := by
  intro fuel
  induction fuel with
  | zero =>
    intro xs h
    have : xs = [] := List.eq_nil_of_length_eq_zero (Nat.le_zero.mp h)
    subst this
    rfl
  | succ fuel ih =>
    intro xs h
    cases xs with
    | nil => rfl
    | cons x xs =>
      have hlen : xs.length ≤ fuel := by simpa using h
      have hd : (xs.drop (c - 1)).length ≤ fuel := by
        rw [List.length_drop]; omega
      simp only [chunkGo, List.flatten_cons, ih _ hd]
      simp [List.take_append_drop]

theorem chunkGo_length {α : Type u} (c : ℕ) (hc : 1 ≤ c) :
    ∀ (fuel : ℕ) (xs : List α), xs.length ≤ fuel →
      (chunkGo c fuel xs).length = (xs.length + c - 1) / c := by
  intro fuel
  induction fuel with
  | zero =>
    intro xs h
    have : xs = [] := List.eq_nil_of_length_eq_zero (Nat.le_zero.mp h)
    subst this
    simp [chunkGo, Nat.div_eq_of_lt (by omega : c - 1 < c)]
  | succ fuel ih =>
    intro xs h
    cases xs with
    | nil => simp [chunkGo, Nat.div_eq_of_lt (by omega : c - 1 < c)]
    | cons x xs =>
      have hlen : xs.length ≤ fuel := by simpa using h
      have hd : (xs.drop (c - 1)).length ≤ fuel := by
        rw [List.length_drop]; omega
      simp only [chunkGo, List.length_cons, ih _ hd, List.length_drop]
      have key : (xs.length - (c - 1) + c - 1) / c = xs.length / c := by
        rcases Nat.lt_or_ge xs.length (c - 1) with hx | hx
        · have h1 : xs.length - (c - 1) = 0 := by omega
          rw [h1]
          rw [Nat.div_eq_of_lt (by omega : 0 + c - 1 < c),
            Nat.div_eq_of_lt (by omega : xs.length < c)]
        · have h1 : xs.length - (c - 1) + c - 1 = xs.length := by omega
          rw [h1]
      rw [key]
      have h2 : xs.length + 1 + c - 1 = xs.length + c := by omega
      rw [h2, Nat.add_div_right _ (by omega : 0 < c)]

theorem chunkGo_sizes {α : Type u} (c : ℕ) (hc : 1 ≤ c) :
    ∀ (fuel : ℕ) (xs : List α), xs.length ≤ fuel →
      ∀ l ∈ chunkGo c fuel xs, l.length ≤ c := by
  intro fuel
  induction fuel with
  | zero =>
    intro xs h l hl
    have : xs = [] := List.eq_nil_of_length_eq_zero (Nat.le_zero.mp h)
    subst this
    simp [chunkGo] at hl
  | succ fuel ih =>
    intro xs h l hl
    cases xs with
    | nil => simp [chunkGo] at hl
    | cons x xs =>
      have hlen : xs.length ≤ fuel := by simpa using h
      have hd : (xs.drop (c - 1)).length ≤ fuel := by
        rw [List.length_drop]; omega
      simp only [chunkGo, List.mem_cons] at hl
      rcases hl with hl | hl
      · subst hl
        have : (xs.take (c - 1)).length ≤ c - 1 := by
          rw [List.length_take]; omega
        simp only [List.length_cons]
        omega
      · exact ih _ hd l hl

/--
C5.  For `T` asset ids and per-connection cap `C ≥ 1`,
`_chunk_asset_ids` produces exactly `⌈T/C⌉` contiguous chunks whose
concatenation is the original id list (so every id appears in exactly one
chunk position), no chunk exceeding `C` ids; 1000 ids with cap 450 yield
exactly the chunk sizes 450, 450, 100.
-/
theorem chunkAssetIds_partition {α : Type u} (c : ℕ) (hc : 1 ≤ c) (xs : List α) :
    (chunkAssetIds c xs).length = (xs.length + c - 1) / c ∧
    (chunkAssetIds c xs).flatten = xs ∧
    (∀ l ∈ chunkAssetIds c xs, l.length ≤ c) ∧
    (chunkAssetIds 450 (List.range 1000)).map List.length = [450, 450, 100] := by
  refine ⟨chunkGo_length c hc xs.length xs le_rfl,
    chunkGo_flatten c xs.length xs le_rfl,
    chunkGo_sizes c hc xs.length xs le_rfl, by decide⟩

/-- Witness for C5 at a concrete id list and cap. -/
theorem chunkAssetIds_partition_witness :
    (chunkAssetIds 2 ["a", "b", "c", "d", "e"]).length = (5 + 2 - 1) / 2 ∧
    (chunkAssetIds 2 ["a", "b", "c", "d", "e"]).flatten = ["a", "b", "c", "d", "e"] ∧
    (∀ l ∈ chunkAssetIds 2 ["a", "b", "c", "d", "e"], l.length ≤ 2) ∧
    (chunkAssetIds 450 (List.range 1000)).map List.length = [450, 450, 100] := by
  have h := chunkAssetIds_partition 2 (by decide) ["a", "b", "c", "d", "e"]
  simpa using h

/-! ## Claim C6: reconnect backoff -/

theorem reconnect_foldl_replicate (j : ℕ) :
    ∀ a : ℕ, (List.replicate j ConnEvent.failure).foldl reconnectStep (min a 30) =
      min (a * 2 ^ j) 30 := by
  induction j with
  | zero => intro a; simp
  | succ j ih =>
    intro a
    rw [List.replicate_succ, List.foldl_cons]
    have hstep : reconnectStep (min a 30) ConnEvent.failure = min (min a 30 * 2) 30 := rfl
    rw [hstep, ih (min a 30 * 2)]
    rcases le_total a 30 with h | h
    · rw [min_eq_left h]
      have : a * 2 * 2 ^ j = a * 2 ^ (j + 1) := by ring
      rw [this]
    · rw [min_eq_right h]
      have h1 : (30 : ℕ) ≤ 30 * 2 * 2 ^ j := by
        have : (1 : ℕ) ≤ 2 ^ j := Nat.one_le_two_pow
        nlinarith
      have h2 : (30 : ℕ) ≤ a * 2 ^ (j + 1) := by
        have : (1 : ℕ) ≤ 2 ^ (j + 1) := Nat.one_le_two_pow
        nlinarith
      rw [min_eq_right h1, min_eq_right h2]

theorem delayAfterFailures_eq (j : ℕ) :
    delayAfterEvents (List.replicate j ConnEvent.failure) = min (2 ^ j) 30 := by
  unfold delayAfterEvents
  have h := reconnect_foldl_replicate j 1
  simpa using h

/--
C6.  After `k ≥ 1` consecutive failed connection attempts with no
intervening success, the delay slept before attempt `k+1` equals
`min(2^(k-1), 30)` seconds — both from a fresh start and after any earlier
history ending in a successful connection — and a single success resets the
delay to 1 second.
-/
theorem reconnectBackoff (k : ℕ) (_hk : 1 ≤ k) (evs : List ConnEvent) :
    delayBeforeNextAttempt k = min (2 ^ (k - 1)) 30 ∧
    delayAfterEvents (evs ++ ConnEvent.success :: List.replicate (k - 1) ConnEvent.failure) =
      min (2 ^ (k - 1)) 30 ∧
    delayAfterEvents (evs ++ [ConnEvent.success]) = 1 := by
  refine ⟨delayAfterFailures_eq (k - 1), ?_, ?_⟩
  · unfold delayAfterEvents
    rw [List.foldl_append, List.foldl_cons]
    have hs : reconnectStep (List.foldl reconnectStep 1 evs) ConnEvent.success = 1 := rfl
    rw [hs]
    exact delayAfterFailures_eq (k - 1)
  · unfold delayAfterEvents
    rw [List.foldl_append]
    rfl

/-- Witness for C6 at `k = 6` after a one-failure prefix and a success. -/
theorem reconnectBackoff_witness :
    delayBeforeNextAttempt 6 = min (2 ^ (6 - 1)) 30 ∧
    delayAfterEvents ([ConnEvent.failure] ++ ConnEvent.success ::
      List.replicate (6 - 1) ConnEvent.failure) = min (2 ^ (6 - 1)) 30 ∧
    delayAfterEvents ([ConnEvent.failure] ++ [ConnEvent.success]) = 1 :=
  reconnectBackoff 6 (by decide) [ConnEvent.failure]

/-! ## Claim C2: when the arbitrage check is triggered -/

/-- `true` exactly on successful results. -/
def exceptOk (x : Except ε α) : Bool :=
  match x with
  | .ok _ => true
  | .error _ => false

/-- The event owning the updated instrument, resolved through the token
mapper and event map exactly as `PolyOrderBookApp.handle_book_update` does. -/
def ownerEvent (st : OrderBookManager) (data : BookMessage) : Option Event :=
  match st.token_mapper.get_outcome_info (data.asset_id.getD "") with
  | none => none
  | some info => dictGet st.events info.1

/-- The number of outcomes of an event with any YES-side ask data. -/
def outcomesWithAskData (e : Event) : ℕ :=
  (e.outcomes.filter (fun p => !p.2.yes.order_book.asks.levels.isEmpty)).length

/-- The `processed` flag of an app-level book update, when it completes. -/
def appProcessed (threshold : ℚ) (st : OrderBookManager) (data : BookMessage)
    (now : ℕ) : Option Bool :=
  match appHandleBookUpdate threshold st data now with
  | .ok r => some r.2.1
  | .error _ => none

/-- Whether `check_event` was triggered by an app-level book update. -/
def appTriggered (threshold : ℚ) (st : OrderBookManager) (data : BookMessage)
    (now : ℕ) : Option Bool :=
  match appHandleBookUpdate threshold st data now with
  | .ok r => some r.2.2.1
  | .error _ => none

/-- The owning event as seen after the update was applied. -/
def appOwnerEventAfter (threshold : ℚ) (st : OrderBookManager) (data : BookMessage)
    (now : ℕ) : Option Event :=
  match appHandleBookUpdate threshold st data now with
  | .ok r => ownerEvent r.1 data
  | .error _ => none

/--
C2 (amended).  For every book update: `check_event` is triggered exactly
when the run completed, the update was processed, and the owning event
exists and has at least two outcomes in total — regardless of how many of
those outcomes have any ask data.
-/
theorem arbCheckTrigger_iff (threshold : ℚ) (st : OrderBookManager) (data : BookMessage)
    (now : ℕ) :
    appTriggered threshold st data now = some true ↔
      (appProcessed threshold st data now = some true ∧
        (appOwnerEventAfter threshold st data now).map
          (fun e => decide (2 ≤ e.outcomes.length)) = some true) := by
  unfold appProcessed appTriggered appOwnerEventAfter
  unfold appHandleBookUpdate
  simp only [bind, Except.bind]
  cases hm : managerHandleBookUpdate st data now with
  | error e => simp
  | ok pr =>
    obtain ⟨st1, processed⟩ := pr
    dsimp only
    cases processed with
    | false => simp
    | true =>
      try dsimp only
      cases hlook : st1.token_mapper.get_outcome_info (data.asset_id.getD "") with
      | none => simp [ownerEvent, hlook]
      | some info =>
        try dsimp only
        cases hev : dictGet st1.events info.1 with
        | none => simp [ownerEvent, hlook, hev]
        | some event =>
          try dsimp only
          by_cases hn : 2 ≤ event.outcomes.length
          · simp only [hn, if_true]
            cases hce : checkEvent threshold event with
            | error e => simp [hce, ownerEvent, hlook, hev, hn]
            | ok res => simp [hce, ownerEvent, hlook, hev, hn]
          · simp [ownerEvent, hlook, hev, hn]

/-- A two-outcome event with no book data yet. -/
def c2Event : Event :=
  { event_id := 1, title := "C2E",
    outcomes := [("m1", tokOutcome "O1" "m1" "t1" "t1n"),
                 ("m2", tokOutcome "O2" "m2" "t2" "t2n")] }

/-- A manager state tracking `c2Event`. -/
def c2State : OrderBookManager :=
  { events := [("1", c2Event)],
    token_mapper := ⟨[("t1", ("1", "m1", Side.yes)), ("t1n", ("1", "m1", Side.no)),
                      ("t2", ("1", "m2", Side.yes)), ("t2n", ("1", "m2", Side.no))]⟩ }

/-- A book update for instrument `t1` carrying one ask level. -/
def c2Msg : BookMessage :=
  { asset_id := some "t1", bids := none,
    asks := some [{ price := "0.40", size := "10" }] }

/--
C2 (counterexample).  An accepted update routed to a tracked instrument
triggers `check_event` even though only one outcome of the owning event has
any ask data: the code gates the check on the total outcome count
(`len(event.outcomes) >= 2`), not on the number of outcomes with ask data.
-/
theorem arbCheckTrigger_claim_false :
    appProcessed (mkRat 99 100) c2State c2Msg 0 = some true ∧
    appTriggered (mkRat 99 100) c2State c2Msg 0 = some true ∧
    (appOwnerEventAfter (mkRat 99 100) c2State c2Msg 0).map outcomesWithAskData =
      some 1 :=
  ⟨by decide, by decide, by decide⟩

end PolyAlpha
